import Mathlib

/-!
Verification of the calendar diff engine of `src/calendar_analyzer.py`.

The engine compares two lists of canonical event records.  Event records are
the dictionaries produced by `extract_events` and
`normalize_aws_calendar_to_ics`: the keys `uid`, `summary`, `description`,
`categories` always hold strings there, and `dtstart`/`dtend` hold either a
`datetime` or `None`.  Datetimes are modelled as integer points on a time
line; their two Python string renderings (`isoformat()` and `str()`) are
modelled by injective encodings into `String`.

Python dictionaries are modelled as association lists with the dict insertion
discipline (an existing key keeps its position and receives the new value, a
fresh key is appended), which reproduces the insertion-order iteration of
CPython dicts.  The stable ascending `list.sort(key=...)` of Python is
modelled with `List.insertionSort`, which computes the same list as any
stable ascending sort.
-/

/-- Model of Python `datetime` values: a point on an integer time line.
Subtraction of two datetimes (a `timedelta`) is integer subtraction. -/
abbrev DT := Int

/-- Model of the sentinel `datetime.min` used by the sort helpers. -/
def dtMin : DT := 0

/-- Injective unary encoding of a natural number, the digit part of the
modelled datetime serializations. -/
def natCode (n : Nat) : List Char := List.replicate n 'x'

/-- Injective encoding of an integer: a sign character followed by the unary
digits. -/
def intCode (i : Int) : List Char :=
  (if i < 0 then '-' else '+') :: natCode i.natAbs

/-- Model of `datetime.isoformat()`: an injective, nonempty serialization. -/
def isoDT (d : DT) : String := String.mk ('T' :: intCode d)

/-- Model of Python `str(datetime)` (the rendering used by `str()` coercion
and f-strings); distinct from `isoformat()`, injective and nonempty. -/
def pyStrDT (d : DT) : String := String.mk ('S' :: intCode d)

/-- Python `str(value)` on an optional datetime: `str(None)` is `"None"`. -/
def strOptDT : Option DT → String
  | none => "None"
  | some d => pyStrDT d

/-- Python `str(value) if value else ''` on an optional datetime
(datetimes are always truthy, `None` is falsy). -/
def strOptDTOrEmpty : Option DT → String
  | none => ""
  | some d => pyStrDT d

/-- Canonical event record: the event dictionary built by `extract_events`
(lines 120-153) and `normalize_aws_calendar_to_ics` (lines 1776-1787).
`uid`, `summary`, `description` and `categories` are always strings there
(an absent source field becomes the empty string), `dtstart` and `dtend`
are datetimes or `None`. -/
structure Event where
  uid : String
  summary : String
  description : String
  categories : String
  dtstart : Option DT
  dtend : Option DT
deriving DecidableEq, Repr

/-- `classify_event_changes` (calendar_analyzer.py lines 1334-1374).
Datetime truthiness is `isSome`; `str(event1.get(prop, ''))` on the string
properties is the identity. -/
def classifyEventChanges (event1 event2 : Event) : String :=
  if event1.dtstart ≠ event2.dtstart ∨ event1.dtend ≠ event2.dtend then
    match event1.dtstart, event1.dtend, event2.dtstart, event2.dtend with
    | some s1, some t1, some s2, some t2 =>
      if t1 - s1 ≠ t2 - s2 then "duration_changed" else "moved"
    | _, _, _, _ => "moved"
  else if event1.summary ≠ event2.summary ∨ event1.description ≠ event2.description
      ∨ event1.categories ≠ event2.categories then "modified"
  else "unchanged"

/-- One emitted property change of `_get_detailed_property_changes`
(lines 1376-1417).  `old_value`/`new_value` are `Option String` because the
datetime branch writes `None` for a falsy value. -/
structure PropChange where
  property : String
  old_value : Option String
  new_value : Option String
  change_type : String
deriving DecidableEq, Repr

/-- String-property step of `_get_detailed_property_changes`: the values are
strings, on which `str(value) if value else ''` is the identity. -/
def textPropChange (name : String) (v1 v2 : String) : List PropChange :=
  if v1 ≠ v2 then [⟨name, some v1, some v2, "string"⟩] else []

/-- Datetime-property step of `_get_detailed_property_changes`: the
`isinstance` branch fires only when both sides are datetimes; otherwise the
string branch compares the `str`-coercions with `None` rendered as `''`. -/
def dtPropChange (name : String) (v1 v2 : Option DT) : List PropChange :=
  match v1, v2 with
  | some d1, some d2 =>
    if d1 ≠ d2 then [⟨name, some (isoDT d1), some (isoDT d2), "datetime"⟩] else []
  | _, _ =>
    if strOptDTOrEmpty v1 ≠ strOptDTOrEmpty v2 then
      [⟨name, some (strOptDTOrEmpty v1), some (strOptDTOrEmpty v2), "string"⟩]
    else []

/-- `_get_detailed_property_changes` (lines 1376-1417): fixed property order
summary, description, categories, dtstart, dtend. -/
def getDetailedPropertyChanges (event1 event2 : Event) : List PropChange :=
  textPropChange "summary" event1.summary event2.summary
    ++ textPropChange "description" event1.description event2.description
    ++ textPropChange "categories" event1.categories event2.categories
    ++ dtPropChange "dtstart" event1.dtstart event2.dtstart
    ++ dtPropChange "dtend" event1.dtend event2.dtend

/-- Python dict insertion: an existing key keeps its position and receives
the new value, a fresh key is appended at the end. -/
def dictInsert (d : List (String × Event)) (k : String) (v : Event) :
    List (String × Event) :=
  if d.any (fun p => p.1 = k) then
    d.map (fun p => if p.1 = k then (k, v) else p)
  else d ++ [(k, v)]

/-- A dict comprehension over a key function. -/
def buildDict (key : Event → String) (events : List Event) :
    List (String × Event) :=
  events.foldl (fun d e => dictInsert d (key e) e) []

/-- Membership test `k in d` on a modelled dict. -/
def hasKey (d : List (String × Event)) (k : String) : Bool :=
  d.any (fun p => p.1 = k)

/-- Indexing `d[k]` on a modelled dict (keys are unique by construction). -/
def dictLookup (d : List (String × Event)) (k : String) : Option Event :=
  (d.find? (fun p => p.1 = k)).map (fun p => p.2)

/-- `events_by_uid = {event['uid']: event for event in events if event['uid']}`
(lines 626-627 and 1283-1284). -/
def eventsByUid (events : List Event) : List (String × Event) :=
  buildDict (fun e => e.uid) (events.filter (fun e => e.uid ≠ ""))

/-- An `added`/`deleted` entry of `detect_event_changes_detailed`. -/
structure AddRec where
  event : Event
  change_type : String
  uid : String
deriving DecidableEq, Repr

/-- A matched-pair entry of `detect_event_changes_detailed`. -/
structure PairRec where
  event1 : Event
  event2 : Event
  changes : List PropChange
  change_type : String
  uid : String
deriving DecidableEq, Repr

/-- The five-list changes dictionary of `detect_event_changes_detailed`
(lines 1286-1292), in its key insertion order. -/
structure DetailedChanges where
  added : List AddRec
  deleted : List AddRec
  modified : List PairRec
  moved : List PairRec
  duration_changed : List PairRec
deriving DecidableEq, Repr

/-- `changes[change_type].append(...)` for a classified pair; the
classifier only ever produces `modified`, `moved` or `duration_changed`
here. -/
def addPairRec (c : DetailedChanges) (ct : String) (r : PairRec) :
    DetailedChanges :=
  if ct = "modified" then { c with modified := c.modified ++ [r] }
  else if ct = "moved" then { c with moved := c.moved ++ [r] }
  else { c with duration_changed := c.duration_changed ++ [r] }

/-- `detect_event_changes_detailed` (lines 1269-1332): UID-keyed dicts over
both inputs, one pass over the after-side dict for additions and pair
classification, one pass over the before-side dict for deletions.  Events
with a falsy `uid` never enter either dict. -/
def detectEventChangesDetailed (events1 events2 : List Event) :
    DetailedChanges :=
  let events1_by_uid := eventsByUid events1
  let events2_by_uid := eventsByUid events2
  let afterPass := events2_by_uid.foldl (fun c p =>
    match dictLookup events1_by_uid p.1 with
    | none => { c with added := c.added ++ [⟨p.2, "added", p.1⟩] }
    | some event1 =>
      let ct := classifyEventChanges event1 p.2
      if ct = "unchanged" then c
      else addPairRec c ct ⟨event1, p.2, getDetailedPropertyChanges event1 p.2, ct, p.1⟩)
    ⟨[], [], [], [], []⟩
  events1_by_uid.foldl (fun c p =>
    if hasKey events2_by_uid p.1 then c
    else { c with deleted := c.deleted ++ [⟨p.2, "deleted", p.1⟩] }) afterPass

/-- The statistics block of `generate_event_semantic_diff` (lines
1230-1238); Python integers are modelled by `Int`. -/
structure DiffStatistics where
  added : Int
  deleted : Int
  modified : Int
  moved : Int
  duration_changed : Int
  unchanged : Int
deriving DecidableEq, Repr

/-- The statistics computed by `generate_event_semantic_diff`: counts of the
five change lists, and `unchanged` as the residual
`len(events1) + len(events2)` minus the five counts. -/
def semanticDiffStatistics (events1 events2 : List Event) : DiffStatistics :=
  let changes := detectEventChangesDetailed events1 events2
  { added := changes.added.length
    deleted := changes.deleted.length
    modified := changes.modified.length
    moved := changes.moved.length
    duration_changed := changes.duration_changed.length
    unchanged := (events1.length : Int) + (events2.length : Int)
      - changes.added.length - changes.deleted.length - changes.modified.length
      - changes.moved.length - changes.duration_changed.length }

/-- The payload stored under `change_data` by
`_sort_changes_chronologically`. -/
inductive ChangeData where
  | single (r : AddRec)
  | pair (r : PairRec)
deriving DecidableEq, Repr

/-- A record of the chronological sequence built by
`_sort_changes_chronologically` (lines 1430-1448). -/
structure SortRec where
  change_type : String
  sort_date : Option DT
  change_data : ChangeData
deriving DecidableEq, Repr

/-- The sort key `x['sort_date'] if x['sort_date'] else datetime.min`
(line 1451). -/
def sortKey (r : SortRec) : DT := r.sort_date.getD dtMin

/-- The comparison relation of the chronological sort. -/
def sortLe (a b : SortRec) : Prop := sortKey a ≤ sortKey b

instance : DecidableRel sortLe :=
  fun a b => inferInstanceAs (Decidable (sortKey a ≤ sortKey b))

instance : IsTotal SortRec sortLe :=
  ⟨fun a b => Int.le_total (sortKey a) (sortKey b)⟩

instance : IsTrans SortRec sortLe :=
  ⟨fun _ _ _ h1 h2 => Int.le_trans h1 h2⟩

/-- Collection step for `added`/`deleted` records: `sort_date` is
`change['event'].get('dtstart', datetime.min)`, which returns the stored
`dtstart` (possibly `None`) since the key is always present. -/
def mkSortRecSingle (ct : String) (r : AddRec) : SortRec :=
  ⟨ct, r.event.dtstart, ChangeData.single r⟩

/-- Collection step for pair records: `sort_date` comes from
`change['event2']`. -/
def mkSortRecPair (ct : String) (r : PairRec) : SortRec :=
  ⟨ct, r.event2.dtstart, ChangeData.pair r⟩

/-- The collection loop of `_sort_changes_chronologically`: `changes.items()`
iterates the dict keys in insertion order `added`, `deleted`, `modified`,
`moved`, `duration_changed`. -/
def allChangeRecords (c : DetailedChanges) : List SortRec :=
  c.added.map (mkSortRecSingle "added")
    ++ c.deleted.map (mkSortRecSingle "deleted")
    ++ c.modified.map (mkSortRecPair "modified")
    ++ c.moved.map (mkSortRecPair "moved")
    ++ c.duration_changed.map (mkSortRecPair "duration_changed")

/-- `_sort_changes_chronologically` (lines 1419-1453): the stable ascending
Python `list.sort` on `sort_date`, modelled by insertion sort. -/
def sortChangesChronologically (c : DetailedChanges) : List SortRec :=
  (allChangeRecords c).insertionSort sortLe

/-- String-property step of `compare_event_properties` (lines 721-755): the
values are strings, and the f-string renders them verbatim. -/
def textPropCompare (name : String) (v1 v2 : String) : List String :=
  if v1 ≠ v2 then [name ++ ": " ++ v1 ++ " → " ++ v2] else []

/-- Datetime-property step of `compare_event_properties`: the `isinstance`
branch needs both sides to be datetimes, otherwise `str()` renderings are
compared (with `str(None)` being `"None"`). -/
def dtPropCompare (name : String) (v1 v2 : Option DT) : List String :=
  match v1, v2 with
  | some d1, some d2 =>
    if d1 ≠ d2 then [name ++ ": " ++ isoDT d1 ++ " → " ++ isoDT d2] else []
  | _, _ =>
    if strOptDT v1 ≠ strOptDT v2 then
      [name ++ ": " ++ strOptDT v1 ++ " → " ++ strOptDT v2]
    else []

/-- `compare_event_properties` (lines 721-755): property order summary,
description, categories, dtstart, dtend. -/
def compareEventProperties (event1 event2 : Event) : List String :=
  textPropCompare "SUMMARY" event1.summary event2.summary
    ++ textPropCompare "DESCRIPTION" event1.description event2.description
    ++ textPropCompare "CATEGORIES" event1.categories event2.categories
    ++ dtPropCompare "DTSTART" event1.dtstart event2.dtstart
    ++ dtPropCompare "DTEND" event1.dtend event2.dtend

/-- An `added`/`deleted`/`unchanged` entry of `detect_event_changes`. -/
structure SimpleEventRec where
  event : Event
  change_type : String
deriving DecidableEq, Repr

/-- A `modified` entry of `detect_event_changes`. -/
structure SimpleModRec where
  event1 : Event
  event2 : Event
  property_changes : List String
  change_type : String
deriving DecidableEq, Repr

/-- The changes dictionary of `detect_event_changes` (lines 642-647). -/
structure SimpleChanges where
  added : List SimpleEventRec
  deleted : List SimpleEventRec
  modified : List SimpleModRec
  unchanged : List SimpleEventRec
deriving DecidableEq, Repr

/-- The fallback key of the uid-less matching in `detect_event_changes`
(lines 687-690): `event['dtstart'].isoformat() if event['dtstart'] else ''`.
The key is the start alone; the summary is not part of it. -/
def fallbackKey (e : Event) : String :=
  match e.dtstart with
  | some d => isoDT d
  | none => ""

/-- `_get_event_sort_key` (lines 757-782) on an event: its truthy `dtstart`,
or `datetime.min`. -/
def eventSortDate (e : Event) : DT :=
  match e.dtstart with
  | some d => d
  | none => dtMin

/-- Sort relation used on `added`/`deleted` entries (which carry `event`). -/
def simpleEventLe (a b : SimpleEventRec) : Prop :=
  eventSortDate a.event ≤ eventSortDate b.event

instance : DecidableRel simpleEventLe :=
  fun a b => inferInstanceAs (Decidable (eventSortDate a.event ≤ eventSortDate b.event))

instance : IsTotal SimpleEventRec simpleEventLe :=
  ⟨fun a b => Int.le_total (eventSortDate a.event) (eventSortDate b.event)⟩

instance : IsTrans SimpleEventRec simpleEventLe :=
  ⟨fun _ _ _ h1 h2 => Int.le_trans h1 h2⟩

/-- Sort relation used on `modified` entries (which carry `event2`). -/
def simpleModLe (a b : SimpleModRec) : Prop :=
  eventSortDate a.event2 ≤ eventSortDate b.event2

instance : DecidableRel simpleModLe :=
  fun a b => inferInstanceAs (Decidable (eventSortDate a.event2 ≤ eventSortDate b.event2))

instance : IsTotal SimpleModRec simpleModLe :=
  ⟨fun a b => Int.le_total (eventSortDate a.event2) (eventSortDate b.event2)⟩

instance : IsTrans SimpleModRec simpleModLe :=
  ⟨fun _ _ _ h1 h2 => Int.le_trans h1 h2⟩

/-- The common-uid loop body of `detect_event_changes` (lines 666-683). -/
def commonStep (d2 : List (String × Event)) (c : SimpleChanges)
    (p : String × Event) : SimpleChanges :=
  match dictLookup d2 p.1 with
  | none => c
  | some event2 =>
    let pcs := compareEventProperties p.2 event2
    if pcs ≠ [] then
      { c with modified := c.modified ++ [⟨p.2, event2, pcs, "modified"⟩] }
    else
      { c with unchanged := c.unchanged ++ [⟨p.2, "unchanged"⟩] }

/-- `detect_event_changes` (lines 612-719): UID-keyed additions, deletions
and pair comparison, then the DTSTART-only fallback matching of uid-less
events (entries with an empty fallback key are skipped), then a stable
chronological sort of the `added`, `deleted` and `modified` lists
(`unchanged` is not sorted). -/
def detectEventChanges (events1 events2 : List Event) : SimpleChanges :=
  let events1_dict := eventsByUid events1
  let events2_dict := eventsByUid events2
  let events1_no_uid := events1.filter (fun e => e.uid = "")
  let events2_no_uid := events2.filter (fun e => e.uid = "")
  let added0 := (events2_dict.filter (fun p => !hasKey events1_dict p.1)).map
    (fun p => SimpleEventRec.mk p.2 "added")
  let deleted0 := (events1_dict.filter (fun p => !hasKey events2_dict p.1)).map
    (fun p => SimpleEventRec.mk p.2 "deleted")
  let afterCommon := (events1_dict.filter (fun p => hasKey events2_dict p.1)).foldl
    (commonStep events2_dict) ⟨added0, deleted0, [], []⟩
  let dtstart1_dict := buildDict fallbackKey events1_no_uid
  let dtstart2_dict := buildDict fallbackKey events2_no_uid
  let addedF := (dtstart2_dict.filter
      (fun p => !hasKey dtstart1_dict p.1 && p.1 != "")).map
    (fun p => SimpleEventRec.mk p.2 "added")
  let deletedF := (dtstart1_dict.filter
      (fun p => !hasKey dtstart2_dict p.1 && p.1 != "")).map
    (fun p => SimpleEventRec.mk p.2 "deleted")
  { added := (afterCommon.added ++ addedF).insertionSort simpleEventLe
    deleted := (afterCommon.deleted ++ deletedF).insertionSort simpleEventLe
    modified := afterCommon.modified.insertionSort simpleModLe
    unchanged := afterCommon.unchanged }

/-- A foreign AWS change-calendar event record (the JSON shape read by the
standard-event branch of `normalize_aws_calendar_to_ics`, lines 1778-1787):
every field may be absent. -/
structure AwsEventRecord where
  id : Option String
  summary : Option String
  start : Option String
  end_ : Option String
  description : Option String
deriving DecidableEq, Repr

/-- The five formats tried by `_parse_aws_datetime` (lines 1812-1818). -/
def awsDatetimeFormats : List String :=
  ["%Y-%m-%dT%H:%M:%SZ", "%Y-%m-%dT%H:%M:%S.%fZ", "%Y-%m-%d",
   "%Y-%m-%dT%H:%M:%S", "%Y/%m/%d %H:%M:%S"]

/-- The format loop of `_parse_aws_datetime` (lines 1820-1824): each
`datetime.strptime` failure is caught and the next format is tried.  The
external `strptime` is an oracle argument of the model. -/
def tryStrptimeFormats (strptime : String → String → Option DT)
    (s : String) : List String → Option DT
  | [] => none
  | fmt :: rest =>
    match strptime s fmt with
    | some d => some d
    | none => tryStrptimeFormats strptime s rest

/-- The body of `_parse_aws_datetime` up to the outer exception handler;
`Except.error` models an exception escaping the body (a failure raised by
`dateutil.parser.parse`, which the inner handler, catching only
`ImportError`, lets through). -/
def parseAwsDatetimeBody (strptime : String → String → Option DT)
    (dateutil : String → Except String DT) (s : Option String) :
    Except String (Option DT) :=
  match s with
  | none => Except.ok none
  | some str =>
    if str = "" then Except.ok none
    else
      match tryStrptimeFormats strptime str awsDatetimeFormats with
      | some d => Except.ok (some d)
      | none =>
        match dateutil str with
        | Except.ok d => Except.ok (some d)
        | Except.error e => Except.error e

/-- `_parse_aws_datetime` (lines 1798-1838): the outer `except Exception`
handler turns every escaping failure into `None`, so the function is total
and never raises. -/
def parseAwsDatetime (strptime : String → String → Option DT)
    (dateutil : String → Except String DT) (s : Option String) : Option DT :=
  match parseAwsDatetimeBody strptime dateutil s with
  | Except.ok r => r
  | Except.error _ => none

/-- The standard-event branch of `normalize_aws_calendar_to_ics` (lines
1778-1787) on one record.  `uuid4` is the random UUID drawn by `uuid.uuid4()`
for this record, passed explicitly to model the nondeterminism. -/
def normalizeAwsEvent (strptime : String → String → Option DT)
    (dateutil : String → Except String DT) (uuid4 : String)
    (event : AwsEventRecord) : Event :=
  { uid := event.id.getD ("aws-change-calendar-" ++ uuid4)
    summary := event.summary.getD "AWS Change Calendar Event"
    description := event.description.getD ""
    categories := "AWS-Change-Calendar"
    dtstart := parseAwsDatetime strptime dateutil event.start
    dtend := parseAwsDatetime strptime dateutil event.end_ }

/-! ## Helper lemmas -/

theorem natCode_injective {m n : Nat} (h : natCode m = natCode n) : m = n := by
  have h2 := congrArg List.length h
  simpa [natCode] using h2

theorem intCode_injective {i j : Int} (h : intCode i = intCode j) : i = j := by
  unfold intCode at h
  by_cases hi : i < 0 <;> by_cases hj : j < 0 <;> simp [hi, hj] at h
  · have h3 := natCode_injective h
    omega
  · have h3 := natCode_injective h
    omega

theorem isoDT_injective {a b : DT} (h : isoDT a = isoDT b) : a = b := by
  unfold isoDT at h
  injection h with h2
  exact intCode_injective (List.cons.injEq .. ▸ congrArg List.tail h2)

theorem isoDT_ne_empty (d : DT) : isoDT d ≠ "" := by
  intro h
  have h2 := congrArg String.data h
  simp [isoDT] at h2

theorem pyStrDT_ne_empty (d : DT) : pyStrDT d ≠ "" := by
  intro h
  have h2 := congrArg String.data h
  simp [pyStrDT] at h2

theorem pyStrDT_ne_noneStr (d : DT) : pyStrDT d ≠ "None" := by
  intro h
  have h2 := congrArg String.data h
  simp [pyStrDT] at h2

theorem classifyEventChanges_self (e : Event) :
    classifyEventChanges e e = "unchanged" := by
  simp [classifyEventChanges]

theorem textPropCompare_eq_nil_iff (name : String) (v1 v2 : String) :
    textPropCompare name v1 v2 = [] ↔ v1 = v2 := by
  unfold textPropCompare
  split <;> simp_all

theorem dtPropCompare_eq_nil_iff (name : String) (v1 v2 : Option DT) :
    dtPropCompare name v1 v2 = [] ↔ v1 = v2 := by
  match v1, v2 with
  | some d1, some d2 => unfold dtPropCompare; split <;> simp_all
  | some d1, none =>
    unfold dtPropCompare
    simp [strOptDT, pyStrDT_ne_noneStr d1]
  | none, some d2 =>
    unfold dtPropCompare
    simp [strOptDT, (pyStrDT_ne_noneStr d2).symm]
  | none, none => simp [dtPropCompare]

theorem compareEventProperties_eq_nil_iff (e1 e2 : Event) :
    compareEventProperties e1 e2 = [] ↔
      e1.summary = e2.summary ∧ e1.description = e2.description ∧
      e1.categories = e2.categories ∧ e1.dtstart = e2.dtstart ∧
      e1.dtend = e2.dtend := by
  unfold compareEventProperties
  simp [List.append_eq_nil, textPropCompare_eq_nil_iff, dtPropCompare_eq_nil_iff]

theorem compareEventProperties_nil_event_eq {e1 e2 : Event}
    (huid : e1.uid = e2.uid) (h : compareEventProperties e1 e2 = []) :
    e1 = e2 := by
  obtain ⟨h1, h2, h3, h4, h5⟩ := (compareEventProperties_eq_nil_iff e1 e2).mp h
  cases e1
  cases e2
  simp_all

theorem dictInsert_keys (d : List (String × Event)) (k : String) (v : Event) :
    (dictInsert d k v).map Prod.fst =
      if d.any (fun p => p.1 = k) then d.map Prod.fst
      else d.map Prod.fst ++ [k] := by
  unfold dictInsert
  split
  · rw [List.map_map]
    apply List.map_congr_left
    intro p _
    by_cases hp : p.1 = k <;> simp [hp]
  · simp

theorem hasKey_iff_mem_keys (d : List (String × Event)) (k : String) :
    hasKey d k = true ↔ k ∈ d.map Prod.fst := by
  simp [hasKey, List.any_eq_true, List.mem_map]

theorem mem_dictInsert {d : List (String × Event)} {k : String} {v : Event}
    {p : String × Event} (h : p ∈ dictInsert d k v) :
    p = (k, v) ∨ p ∈ d := by
  unfold dictInsert at h
  split at h
  · obtain ⟨q, hq, he⟩ := List.mem_map.mp h
    by_cases hqk : q.1 = k
    · simp [hqk] at he
      exact Or.inl he.symm
    · simp [hqk] at he
      exact Or.inr (he ▸ hq)
  · rcases List.mem_append.mp h with h2 | h2
    · exact Or.inr h2
    · simp at h2
      exact Or.inl h2

theorem buildDict_mem_prop (key : Event → String) (P : Event → Prop)
    (l : List Event) (hl : ∀ e ∈ l, P e) :
    ∀ p ∈ buildDict key l, p.1 = key p.2 ∧ P p.2 := by
  unfold buildDict
  suffices h : ∀ (l2 : List Event) (acc : List (String × Event)),
      (∀ e ∈ l2, P e) → (∀ p ∈ acc, p.1 = key p.2 ∧ P p.2) →
      ∀ p ∈ l2.foldl (fun d e => dictInsert d (key e) e) acc,
        p.1 = key p.2 ∧ P p.2 by
    exact h l [] hl (by simp)
  intro l2
  induction l2 with
  | nil => intro acc _ hacc p hp; exact hacc p hp
  | cons e rest ih =>
    intro acc hl2 hacc p hp
    refine ih _ (fun x hx => hl2 x (List.mem_cons_of_mem _ hx)) ?_ p hp
    intro q hq
    rcases mem_dictInsert hq with h2 | h2
    · subst h2
      exact ⟨rfl, hl2 e (List.mem_cons_self ..)⟩
    · exact hacc q h2

theorem buildDict_keys_nodup (key : Event → String) (l : List Event) :
    ((buildDict key l).map Prod.fst).Nodup := by
  unfold buildDict
  suffices h : ∀ (l2 : List Event) (acc : List (String × Event)),
      (acc.map Prod.fst).Nodup →
      ((l2.foldl (fun d e => dictInsert d (key e) e) acc).map Prod.fst).Nodup by
    exact h l [] (by simp)
  intro l2
  induction l2 with
  | nil => intro acc hacc; exact hacc
  | cons e rest ih =>
    intro acc hacc
    refine ih _ ?_
    rw [dictInsert_keys]
    split
    · exact hacc
    · rename_i hany
      rw [List.nodup_append]
      refine ⟨hacc, List.nodup_singleton _, ?_⟩
      intro k hk hk2
      simp only [List.mem_singleton] at hk2
      subst hk2
      obtain ⟨p, hp, he⟩ := List.mem_map.mp hk
      apply hany
      exact List.any_eq_true.mpr ⟨p, hp, decide_eq_true he⟩

theorem dictLookup_of_mem {d : List (String × Event)} {k : String} {v : Event}
    (hnd : (d.map Prod.fst).Nodup) (h : (k, v) ∈ d) :
    dictLookup d k = some v := by
  induction d with
  | nil => simp at h
  | cons q rest ih =>
    simp only [List.map_cons, List.nodup_cons] at hnd
    rcases List.mem_cons.mp h with h2 | h2
    · subst h2
      rw [dictLookup, List.find?_cons_of_pos _ (by simp)]
      rfl
    · have hq : ¬ q.1 = k := by
        intro he
        exact hnd.1 (he ▸ List.mem_map.mpr ⟨(k, v), h2, rfl⟩)
      rw [dictLookup, List.find?_cons_of_neg _ (by simpa using hq)]
      exact ih hnd.2 h2

theorem buildDict_eq_map (key : Event → String) {l : List Event}
    (h : (l.map key).Nodup) :
    buildDict key l = l.map (fun e => (key e, e)) := by
  unfold buildDict
  suffices hgen : ∀ (l2 : List Event) (acc : List (String × Event)),
      (l2.map key).Nodup →
      (∀ k ∈ acc.map Prod.fst, k ∉ l2.map key) →
      l2.foldl (fun d e => dictInsert d (key e) e) acc
        = acc ++ l2.map (fun e => (key e, e)) by
    simpa using hgen l [] h (by simp)
  intro l2
  induction l2 with
  | nil => intro acc _ _; simp
  | cons e rest ih =>
    intro acc hnd hdisj
    have hnd2 : key e ∉ rest.map key ∧ (rest.map key).Nodup := by simpa using hnd
    have hnotin : ¬ acc.any (fun p => p.1 = key e) = true := by
      intro hany
      obtain ⟨p, hp, he⟩ := List.any_eq_true.mp hany
      simp at he
      exact hdisj (key e) (he ▸ List.mem_map.mpr ⟨p, hp, rfl⟩) (by simp)
    have hstep : dictInsert acc (key e) e = acc ++ [(key e, e)] := by
      unfold dictInsert
      rw [if_neg hnotin]
    have hdisj2 : ∀ k ∈ (acc ++ [(key e, e)]).map Prod.fst, k ∉ rest.map key := by
      intro k hk
      rcases List.mem_map.mp hk with ⟨p, hp, he⟩
      rcases List.mem_append.mp hp with h2 | h2
      · exact fun hkr =>
          hdisj k (List.mem_map.mpr ⟨p, h2, he⟩) (List.mem_cons_of_mem _ hkr)
      · simp at h2
        have hke : k = key e := by rw [← he, h2]
        rw [hke]
        exact hnd2.1
    rw [List.foldl_cons, hstep, ih (acc ++ [(key e, e)]) hnd2.2 hdisj2]
    simp

theorem foldl_fixed {α β : Type} {f : β → α → β} {l : List α} {b : β}
    (h : ∀ a ∈ l, f b a = b) : l.foldl f b = b := by
  induction l with
  | nil => rfl
  | cons x rest ih =>
    rw [List.foldl_cons, h x (List.mem_cons_self ..)]
    exact ih (fun a ha => h a (List.mem_cons_of_mem _ ha))

theorem eventsByUid_keys_nodup (l : List Event) :
    ((eventsByUid l).map Prod.fst).Nodup :=
  buildDict_keys_nodup (fun e => e.uid) (l.filter (fun e => e.uid ≠ ""))

theorem eventsByUid_lookup_self {l : List Event} {p : String × Event}
    (hp : p ∈ eventsByUid l) :
    dictLookup (eventsByUid l) p.1 = some p.2 :=
  dictLookup_of_mem (eventsByUid_keys_nodup l) hp

/-- Diffing a list against itself produces no change entries at all: every
common uid classifies as unchanged and is dropped. -/
theorem detectEventChangesDetailed_self (X : List Event) :
    detectEventChangesDetailed X X = ⟨[], [], [], [], []⟩ := by
  simp only [detectEventChangesDetailed]
  rw [foldl_fixed, foldl_fixed]
  · intro p hp
    rw [eventsByUid_lookup_self hp]
    simp [classifyEventChanges_self]
  · intro p hp
    rw [if_pos ((hasKey_iff_mem_keys _ _).mpr (List.mem_map.mpr ⟨p, hp, rfl⟩))]

theorem length_filter_uid_split (l : List Event) :
    (l.filter (fun e => e.uid ≠ "")).length
      + (l.filter (fun e => e.uid = "")).length = l.length := by
  simp only [ne_eq, decide_not]
  induction l with
  | nil => rfl
  | cons e rest ih =>
    by_cases he : e.uid = "" <;> simp [List.filter_cons, he] <;> omega

/-! ## C1: self-diff neutrality -/

/-- C1 counterexample: on a one-event list with a unique non-empty uid the
self-diff statistics report `unchanged = 2`, not `len(X) = 1` as claimed:
the residual formula counts `len(events1) + len(events2)`. -/
theorem selfDiff_unchanged_counterexample :
    (semanticDiffStatistics [⟨"u1", "s", "", "", some 1, some 2⟩]
        [⟨"u1", "s", "", "", some 1, some 2⟩]).unchanged = 2
    ∧ ([⟨"u1", "s", "", "", some 1, some 2⟩] : List Event).length = 1
    ∧ (2 : Int) ≠ (1 : Int) := by decide

/-- C1 amended: the semantic self-diff of any event list with unique
non-empty uids yields no change entries, statistics with all five change
counts zero and `unchanged = 2 * len(X)` (not `len(X)`), and an empty
chronological sequence. -/
theorem selfDiff_neutral_amended (X : List Event)
    (h1 : ∀ e ∈ X, e.uid ≠ "") (h2 : (X.map (fun e => e.uid)).Nodup) :
    detectEventChangesDetailed X X = ⟨[], [], [], [], []⟩
    ∧ semanticDiffStatistics X X = ⟨0, 0, 0, 0, 0, 2 * X.length⟩
    ∧ sortChangesChronologically (detectEventChangesDetailed X X) = [] := by
  refine ⟨detectEventChangesDetailed_self X, ?_, ?_⟩
  · simp only [semanticDiffStatistics, detectEventChangesDetailed_self]
    simp [DiffStatistics.mk.injEq]
    omega
  · rw [detectEventChangesDetailed_self]
    rfl

/-- C1 witness: the amended statement applied to a concrete singleton
list. -/
theorem selfDiff_neutral_amended_witness :
    detectEventChangesDetailed [⟨"u1", "s", "", "", some 1, some 2⟩]
        [⟨"u1", "s", "", "", some 1, some 2⟩] = ⟨[], [], [], [], []⟩
    ∧ semanticDiffStatistics [⟨"u1", "s", "", "", some 1, some 2⟩]
        [⟨"u1", "s", "", "", some 1, some 2⟩] = ⟨0, 0, 0, 0, 0, 2 * 1⟩
    ∧ sortChangesChronologically (detectEventChangesDetailed
        [⟨"u1", "s", "", "", some 1, some 2⟩]
        [⟨"u1", "s", "", "", some 1, some 2⟩]) = [] := by
  have h := selfDiff_neutral_amended [⟨"u1", "s", "", "", some 1, some 2⟩]
    (by decide) (by decide)
  simpa using h

/-! ## C2: classifier decision order -/

/-- C2: the classifier follows the fixed decision order.  If start or end
differ, the result is `duration_changed` exactly when all four datetimes are
present and the durations differ, and `moved` otherwise; if start and end
both agree, the result is `modified` exactly when summary, description or
categories differ under string equality (the canonical event record stores
these properties as strings, so the `str()` coercion is the identity and a
missing source value is already the empty string), and `unchanged`
otherwise. -/
theorem classify_decision_order (e1 e2 : Event) :
    (¬ (e1.dtstart = e2.dtstart ∧ e1.dtend = e2.dtend) →
      ((classifyEventChanges e1 e2 = "duration_changed" ↔
        (∃ s1 t1 s2 t2, e1.dtstart = some s1 ∧ e1.dtend = some t1 ∧
          e2.dtstart = some s2 ∧ e2.dtend = some t2 ∧ t1 - s1 ≠ t2 - s2)) ∧
       (classifyEventChanges e1 e2 = "moved" ↔
        ¬ (∃ s1 t1 s2 t2, e1.dtstart = some s1 ∧ e1.dtend = some t1 ∧
          e2.dtstart = some s2 ∧ e2.dtend = some t2 ∧ t1 - s1 ≠ t2 - s2))))
    ∧ (e1.dtstart = e2.dtstart ∧ e1.dtend = e2.dtend →
      ((classifyEventChanges e1 e2 = "modified" ↔
        (e1.summary ≠ e2.summary ∨ e1.description ≠ e2.description ∨
          e1.categories ≠ e2.categories)) ∧
       (classifyEventChanges e1 e2 = "unchanged" ↔
        ¬ (e1.summary ≠ e2.summary ∨ e1.description ≠ e2.description ∨
          e1.categories ≠ e2.categories)))) := by
  obtain ⟨u1, sm1, dc1, ct1, ds1, de1⟩ := e1
  obtain ⟨u2, sm2, dc2, ct2, ds2, de2⟩ := e2
  constructor
  · intro hne
    have hcond : ds1 ≠ ds2 ∨ de1 ≠ de2 := by
      rcases not_and_or.mp hne with h | h
      · exact Or.inl (by simpa using h)
      · exact Or.inr (by simpa using h)
    simp only [classifyEventChanges]
    rw [if_pos hcond]
    rcases ds1 with _ | s1 <;> rcases de1 with _ | t1 <;>
      rcases ds2 with _ | s2 <;> rcases de2 with _ | t2 <;>
      constructor <;> simp
  · intro heq
    have h1 : ds1 = ds2 := heq.1
    have h2 : de1 = de2 := heq.2
    simp only [classifyEventChanges]
    rw [if_neg (by simp [h1, h2])]
    by_cases htext : sm1 ≠ sm2 ∨ dc1 ≠ dc2 ∨ ct1 ≠ ct2
    · rw [if_pos htext]
      simp [htext]
    · rw [if_neg htext]
      simp [htext]

/-- C2 witness: the decision order applied to a concrete pair whose start
moved while an end is missing, giving `moved`. -/
theorem classify_decision_order_witness :
    classifyEventChanges ⟨"u", "a", "", "", some 1, none⟩
      ⟨"u", "a", "", "", some 2, none⟩ = "moved" :=
  ((classify_decision_order ⟨"u", "a", "", "", some 1, none⟩
      ⟨"u", "a", "", "", some 2, none⟩).1 (by decide)).2.mpr
    (by rintro ⟨s1, t1, s2, t2, hx1, hx2, hx3, hx4, hx5⟩; exact Option.noConfusion hx2)

theorem mem_textPropChange {name v1 v2 : String} {pc : PropChange}
    (h : pc ∈ textPropChange name v1 v2) :
    v1 ≠ v2 ∧ pc = ⟨name, some v1, some v2, "string"⟩ := by
  unfold textPropChange at h
  split at h <;> simp_all

theorem mem_dtPropChange {name : String} {v1 v2 : Option DT} {pc : PropChange}
    (h : pc ∈ dtPropChange name v1 v2) :
    (∃ d1 d2, v1 = some d1 ∧ v2 = some d2 ∧ d1 ≠ d2 ∧
      pc = ⟨name, some (isoDT d1), some (isoDT d2), "datetime"⟩)
    ∨ ((v1 = none ∨ v2 = none) ∧
      pc = ⟨name, some (strOptDTOrEmpty v1), some (strOptDTOrEmpty v2), "string"⟩) := by
  match v1, v2 with
  | some d1, some d2 =>
    unfold dtPropChange at h
    split at h <;> simp_all
  | some d1, none =>
    unfold dtPropChange at h
    split at h <;> simp_all
  | none, some d2 =>
    unfold dtPropChange at h
    split at h <;> simp_all
  | none, none =>
    unfold dtPropChange at h
    simp [strOptDTOrEmpty] at h

theorem textPropChange_eq_nil_iff (name v1 v2 : String) :
    textPropChange name v1 v2 = [] ↔ v1 = v2 := by
  unfold textPropChange
  split <;> simp_all

theorem dtPropChange_eq_nil_iff (name : String) (v1 v2 : Option DT) :
    dtPropChange name v1 v2 = [] ↔ v1 = v2 := by
  match v1, v2 with
  | some d1, some d2 => unfold dtPropChange; split <;> simp_all
  | some d1, none =>
    unfold dtPropChange
    simp [strOptDTOrEmpty, pyStrDT_ne_empty d1]
  | none, some d2 =>
    unfold dtPropChange
    simp [strOptDTOrEmpty, (pyStrDT_ne_empty d2).symm]
  | none, none => simp [dtPropChange]

theorem getDetailedPropertyChanges_eq_nil_iff (e1 e2 : Event) :
    getDetailedPropertyChanges e1 e2 = [] ↔
      e1.summary = e2.summary ∧ e1.description = e2.description ∧
      e1.categories = e2.categories ∧ e1.dtstart = e2.dtstart ∧
      e1.dtend = e2.dtend := by
  unfold getDetailedPropertyChanges
  simp [List.append_eq_nil, textPropChange_eq_nil_iff, dtPropChange_eq_nil_iff]

/-! ## C6: serialization of start and end property changes -/

/-- C6 counterexample: for a pair whose start is present on one side only,
the emitted change record has `value_kind` string (not datetime), and the
absent side is rendered as the empty string (not null): the `isinstance`
guard requires both sides to be datetimes. -/
theorem datetime_kind_counterexample :
    getDetailedPropertyChanges ⟨"u", "a", "", "", some 1, none⟩
        ⟨"u", "a", "", "", none, none⟩
      = [⟨"dtstart", some (pyStrDT 1), some "", "string"⟩]
    ∧ (PropChange.mk "dtstart" (some (pyStrDT 1)) (some "") "string").change_type
        ≠ "datetime"
    ∧ (PropChange.mk "dtstart" (some (pyStrDT 1)) (some "") "string").new_value
        ≠ none := by decide

/-- C6 amended: a start/end property change carries `value_kind` datetime
with both values in ISO form exactly when both sides are present; when a
side is absent the change (if emitted) carries `value_kind` string, with the
absent side rendered as the empty string and a present side via `str()`. -/
theorem property_change_kind_amended (e1 e2 : Event) (pc : PropChange)
    (hm : pc ∈ getDetailedPropertyChanges e1 e2) :
    (pc.property = "dtstart" →
      ((∀ d1 d2, e1.dtstart = some d1 → e2.dtstart = some d2 →
        pc.change_type = "datetime" ∧ pc.old_value = some (isoDT d1) ∧
        pc.new_value = some (isoDT d2)) ∧
       ((e1.dtstart = none ∨ e2.dtstart = none) →
        pc.change_type = "string" ∧
        pc.old_value = some (strOptDTOrEmpty e1.dtstart) ∧
        pc.new_value = some (strOptDTOrEmpty e2.dtstart))))
    ∧ (pc.property = "dtend" →
      ((∀ d1 d2, e1.dtend = some d1 → e2.dtend = some d2 →
        pc.change_type = "datetime" ∧ pc.old_value = some (isoDT d1) ∧
        pc.new_value = some (isoDT d2)) ∧
       ((e1.dtend = none ∨ e2.dtend = none) →
        pc.change_type = "string" ∧
        pc.old_value = some (strOptDTOrEmpty e1.dtend) ∧
        pc.new_value = some (strOptDTOrEmpty e2.dtend)))) := by
  unfold getDetailedPropertyChanges at hm
  rcases List.mem_append.mp hm with hm4 | hmEnd
  rcases List.mem_append.mp hm4 with hm3 | hmStart
  rcases List.mem_append.mp hm3 with hm2 | hmCat
  rcases List.mem_append.mp hm2 with hmSum | hmDesc
  · rw [(mem_textPropChange hmSum).2]
    constructor <;> intro hp <;> simp at hp
  · rw [(mem_textPropChange hmDesc).2]
    constructor <;> intro hp <;> simp at hp
  · rw [(mem_textPropChange hmCat).2]
    constructor <;> intro hp <;> simp at hp
  · rcases mem_dtPropChange hmStart with ⟨d1, d2, hv1, hv2, hne, hpc⟩ | ⟨hnone, hpc⟩
    · subst hpc
      refine ⟨fun _ => ⟨?_, ?_⟩, fun hp => by simp at hp⟩
      · intro a b ha hb
        rw [hv1] at ha
        rw [hv2] at hb
        simp at ha hb
        subst ha
        subst hb
        exact ⟨rfl, rfl, rfl⟩
      · intro habs
        rcases habs with h | h
        · rw [hv1] at h; exact Option.noConfusion h
        · rw [hv2] at h; exact Option.noConfusion h
    · subst hpc
      refine ⟨fun _ => ⟨?_, fun _ => ⟨rfl, rfl, rfl⟩⟩, fun hp => by simp at hp⟩
      intro a b ha hb
      rcases hnone with h | h
      · rw [ha] at h; exact Option.noConfusion h
      · rw [hb] at h; exact Option.noConfusion h
  · rcases mem_dtPropChange hmEnd with ⟨d1, d2, hv1, hv2, hne, hpc⟩ | ⟨hnone, hpc⟩
    · subst hpc
      refine ⟨fun hp => by simp at hp, fun _ => ⟨?_, ?_⟩⟩
      · intro a b ha hb
        rw [hv1] at ha
        rw [hv2] at hb
        simp at ha hb
        subst ha
        subst hb
        exact ⟨rfl, rfl, rfl⟩
      · intro habs
        rcases habs with h | h
        · rw [hv1] at h; exact Option.noConfusion h
        · rw [hv2] at h; exact Option.noConfusion h
    · subst hpc
      refine ⟨fun hp => by simp at hp, fun _ => ⟨?_, fun _ => ⟨rfl, rfl, rfl⟩⟩⟩
      intro a b ha hb
      rcases hnone with h | h
      · rw [ha] at h; exact Option.noConfusion h
      · rw [hb] at h; exact Option.noConfusion h

/-- C6 witness: the amended statement applied to a pair whose starts are
both present and different. -/
theorem property_change_kind_amended_witness :
    (PropChange.mk "dtstart" (some (isoDT 1)) (some (isoDT 2)) "datetime").change_type
      = "datetime" :=
  (((property_change_kind_amended ⟨"u", "a", "", "", some 1, none⟩
      ⟨"u", "a", "", "", some 2, none⟩
      ⟨"dtstart", some (isoDT 1), some (isoDT 2), "datetime"⟩
      (by decide)).1 rfl).1 1 2 rfl rfl).1

/-! ## C7: non-unchanged pairs have property changes -/

/-- C7: whenever the classifier labels a matched pair with anything other
than `unchanged`, the property differ emits at least one change record. -/
theorem nonunchanged_propchanges_nonempty (e1 e2 : Event)
    (h : classifyEventChanges e1 e2 ≠ "unchanged") :
    getDetailedPropertyChanges e1 e2 ≠ [] := by
  intro hnil
  apply h
  obtain ⟨h1, h2, h3, h4, h5⟩ := (getDetailedPropertyChanges_eq_nil_iff e1 e2).mp hnil
  unfold classifyEventChanges
  rw [if_neg (by simp [h4, h5])]
  rw [if_neg (by simp [h1, h2, h3])]

/-- C7 witness: a summary-only change yields a non-empty change list. -/
theorem nonunchanged_propchanges_nonempty_witness :
    getDetailedPropertyChanges ⟨"u", "a", "", "", some 1, some 2⟩
      ⟨"u", "b", "", "", some 1, some 2⟩ ≠ [] :=
  nonunchanged_propchanges_nonempty _ _ (by decide)

/-! ## C8: canonicalization failure policy -/

theorem tryStrptimeFormats_none {strptime : String → String → Option DT}
    {s : String} {fmts : List String}
    (h : ∀ fmt ∈ fmts, strptime s fmt = none) :
    tryStrptimeFormats strptime s fmts = none := by
  induction fmts with
  | nil => rfl
  | cons fmt rest ih =>
    unfold tryStrptimeFormats
    rw [h fmt (List.mem_cons_self ..)]
    exact ih (fun f hf => h f (List.mem_cons_of_mem _ hf))

/-- C8: a start or end string that no known format parses (every `strptime`
format fails and the `dateutil` fallback raises) yields `None` in the
canonical event, and the adapter returns normally instead of raising: the
modelled parser is total and its outer handler maps the escaping
`dateutil` exception to `None`. -/
theorem unparsable_date_yields_none
    (strptime : String → String → Option DT)
    (dateutil : String → Except String DT) (s msg : String)
    (hfmt : ∀ fmt ∈ awsDatetimeFormats, strptime s fmt = none)
    (hdu : dateutil s = Except.error msg) :
    parseAwsDatetime strptime dateutil (some s) = none
    ∧ ∀ (uuid4 : String) (r : AwsEventRecord),
        (normalizeAwsEvent strptime dateutil uuid4
          { r with start := some s }).dtstart = none
        ∧ (normalizeAwsEvent strptime dateutil uuid4
          { r with end_ := some s }).dtend = none := by
  have htry := tryStrptimeFormats_none hfmt
  have hparse : parseAwsDatetime strptime dateutil (some s) = none := by
    by_cases hs : s = "" <;>
      simp [parseAwsDatetime, parseAwsDatetimeBody, hs, htry, hdu]
  refine ⟨hparse, fun uuid4 r => ⟨?_, ?_⟩⟩ <;> simp [normalizeAwsEvent, hparse]

/-- C8 witness: the failure policy at a concrete garbage date string with
concrete failing parser oracles. -/
theorem unparsable_date_yields_none_witness :
    parseAwsDatetime (fun _ _ => none) (fun _ => Except.error "boom")
        (some "garbage") = none
    ∧ (normalizeAwsEvent (fun _ _ => none) (fun _ => Except.error "boom") "w"
        ⟨none, none, some "garbage", none, none⟩).dtstart = none := by
  have h := unparsable_date_yields_none (fun _ _ => none)
    (fun _ => Except.error "boom") "garbage" "boom" (fun fmt _ => rfl) rfl
  exact ⟨h.1, (h.2 "w" ⟨none, none, some "garbage", none, none⟩).1⟩

/-! ## C9: placeholder uid determinism -/

/-- C9 counterexample: a record without `id` receives a uid embedding the
freshly drawn random UUID, so two runs drawing different UUIDs on the same
input produce different uids. -/
theorem placeholder_uid_counterexample :
    (normalizeAwsEvent (fun _ _ => none) (fun _ => Except.error "e")
        "11111111-1111" ⟨none, none, none, none, none⟩).uid
    ≠ (normalizeAwsEvent (fun _ _ => none) (fun _ => Except.error "e")
        "22222222-2222" ⟨none, none, none, none, none⟩).uid := by decide

/-- C9 amended: the canonical uid is deterministic exactly for records that
carry an `id` (it is that id, independent of the UUID draw); for records
without `id` the uid is the placeholder prefix followed by the run-specific
random UUID draw. -/
theorem uid_deterministic_with_id
    (strptime : String → String → Option DT)
    (dateutil : String → Except String DT)
    (u1 u2 : String) (r : AwsEventRecord) :
    (∀ i, r.id = some i →
      (normalizeAwsEvent strptime dateutil u1 r).uid = i ∧
      (normalizeAwsEvent strptime dateutil u1 r).uid
        = (normalizeAwsEvent strptime dateutil u2 r).uid)
    ∧ (r.id = none →
      (normalizeAwsEvent strptime dateutil u1 r).uid
        = "aws-change-calendar-" ++ u1) := by
  constructor
  · intro i hi
    constructor <;> simp [normalizeAwsEvent, hi]
  · intro hi
    simp [normalizeAwsEvent, hi]

/-- C9 witness: determinism for a record carrying an id. -/
theorem uid_deterministic_with_id_witness :
    (normalizeAwsEvent (fun _ _ => none) (fun _ => Except.error "e") "aaaa"
      ⟨some "ID1", none, none, none, none⟩).uid = "ID1" :=
  ((uid_deterministic_with_id (fun _ _ => none) (fun _ => Except.error "e")
    "aaaa" "bbbb" ⟨some "ID1", none, none, none, none⟩).1 "ID1" rfl).1

/-! ## C10: the detailed matcher ignores uid-less events -/

theorem eventsByUid_filter_keyed (l : List Event) :
    eventsByUid (l.filter (fun e => e.uid ≠ "")) = eventsByUid l := by
  simp [eventsByUid, List.filter_filter]

/-- C10: events with an empty uid are invisible to the detailed matcher:
the change lists and the chronological sequence agree with those of the
uid-keyed sublists, and in the statistics such events contribute only to
the residual `unchanged` total. -/
theorem detailed_ignores_unkeyed (l1 l2 : List Event) :
    detectEventChangesDetailed l1 l2
      = detectEventChangesDetailed (l1.filter (fun e => e.uid ≠ ""))
          (l2.filter (fun e => e.uid ≠ ""))
    ∧ semanticDiffStatistics l1 l2
      = { semanticDiffStatistics (l1.filter (fun e => e.uid ≠ ""))
            (l2.filter (fun e => e.uid ≠ "")) with
          unchanged := (semanticDiffStatistics (l1.filter (fun e => e.uid ≠ ""))
              (l2.filter (fun e => e.uid ≠ ""))).unchanged
            + (l1.filter (fun e => e.uid = "")).length
            + (l2.filter (fun e => e.uid = "")).length }
    ∧ sortChangesChronologically (detectEventChangesDetailed l1 l2)
      = sortChangesChronologically (detectEventChangesDetailed
          (l1.filter (fun e => e.uid ≠ "")) (l2.filter (fun e => e.uid ≠ ""))) := by
  have hdet : detectEventChangesDetailed (l1.filter (fun e => e.uid ≠ ""))
      (l2.filter (fun e => e.uid ≠ "")) = detectEventChangesDetailed l1 l2 := by
    simp only [detectEventChangesDetailed, eventsByUid_filter_keyed]
  have hlen1 := length_filter_uid_split l1
  have hlen2 := length_filter_uid_split l2
  refine ⟨hdet.symm, ?_, by rw [hdet]⟩
  simp only [semanticDiffStatistics, hdet, DiffStatistics.mk.injEq, true_and,
    and_true, eq_self_iff_true]
  omega

/-! ## C5: chronological sorting -/

/-- The position of a change type in the collection order of the
`changes.items()` loop of `_sort_changes_chronologically`. -/
def changeTypeRank (ct : String) : Nat :=
  if ct = "added" then 0
  else if ct = "deleted" then 1
  else if ct = "modified" then 2
  else if ct = "moved" then 3
  else 4

theorem pair_sublist_of_mem {a b : SortRec} {l1 l2 : List SortRec}
    (ha : a ∈ l1) (hb : b ∈ l2) : [a, b].Sublist (l1 ++ l2) :=
  (List.singleton_sublist.mpr ha).append (List.singleton_sublist.mpr hb)

theorem pair_sublist_extend_right {a b : SortRec} {l l0 : List SortRec}
    (h : [a, b].Sublist l) : [a, b].Sublist (l ++ l0) :=
  h.trans (List.sublist_append_left l l0)

theorem mem_block_cases {c : DetailedChanges} {a : SortRec}
    (ha : a ∈ allChangeRecords c) :
    (a ∈ c.added.map (mkSortRecSingle "added") ∧ a.change_type = "added") ∨
    (a ∈ c.deleted.map (mkSortRecSingle "deleted") ∧ a.change_type = "deleted") ∨
    (a ∈ c.modified.map (mkSortRecPair "modified") ∧ a.change_type = "modified") ∨
    (a ∈ c.moved.map (mkSortRecPair "moved") ∧ a.change_type = "moved") ∨
    (a ∈ c.duration_changed.map (mkSortRecPair "duration_changed")
      ∧ a.change_type = "duration_changed") := by
  unfold allChangeRecords at ha
  rcases List.mem_append.mp ha with h4 | hB4
  · rcases List.mem_append.mp h4 with h3 | hB3
    · rcases List.mem_append.mp h3 with h2 | hB2
      · rcases List.mem_append.mp h2 with hB0 | hB1
        · refine Or.inl ⟨hB0, ?_⟩
          obtain ⟨r, _, he⟩ := List.mem_map.mp hB0
          exact he ▸ rfl
        · refine Or.inr (Or.inl ⟨hB1, ?_⟩)
          obtain ⟨r, _, he⟩ := List.mem_map.mp hB1
          exact he ▸ rfl
      · refine Or.inr (Or.inr (Or.inl ⟨hB2, ?_⟩))
        obtain ⟨r, _, he⟩ := List.mem_map.mp hB2
        exact he ▸ rfl
    · refine Or.inr (Or.inr (Or.inr (Or.inl ⟨hB3, ?_⟩)))
      obtain ⟨r, _, he⟩ := List.mem_map.mp hB3
      exact he ▸ rfl
  · refine Or.inr (Or.inr (Or.inr (Or.inr ⟨hB4, ?_⟩)))
    obtain ⟨r, _, he⟩ := List.mem_map.mp hB4
    exact he ▸ rfl

/-- C5 counterexample: a deleted and an added record with the same
`sort_date` appear in the order added-then-deleted in the chronological
sequence (the collection loop visits `added` first and the sort is stable),
not in the claimed tie order deleted-before-added. -/
theorem tie_order_counterexample :
    (sortChangesChronologically (detectEventChangesDetailed
        [⟨"a", "x", "", "", some 5, none⟩] [⟨"b", "y", "", "", some 5, none⟩])).map
      SortRec.change_type = ["added", "deleted"]
    ∧ (sortChangesChronologically (detectEventChangesDetailed
        [⟨"a", "x", "", "", some 5, none⟩] [⟨"b", "y", "", "", some 5, none⟩])).map
      sortKey = [5, 5]
    ∧ (["added", "deleted"] : List String) ≠ ["deleted", "added"] := by decide

/-- C5 amended: the chronological sequence is stably sorted ascending by the
coalesced sort date, and records with equal sort date appear in the fixed
tie order added, deleted, modified, moved, duration-changed (the insertion
order of the changes dict), not the claimed order with deleted first and
added last. -/
theorem chronological_sort_amended (c : DetailedChanges) :
    List.Sorted sortLe (sortChangesChronologically c)
    ∧ ∀ a b, a ∈ allChangeRecords c → b ∈ allChangeRecords c →
        sortKey a = sortKey b →
        changeTypeRank a.change_type < changeTypeRank b.change_type →
        [a, b].Sublist (sortChangesChronologically c) := by
  constructor
  · exact List.sorted_insertionSort sortLe (allChangeRecords c)
  · intro a b ha hb hkey hrank
    apply List.pair_sublist_insertionSort (show sortLe a b from le_of_eq hkey)
    rcases mem_block_cases ha with ⟨ha2, hct⟩ | ⟨ha2, hct⟩ | ⟨ha2, hct⟩ | ⟨ha2, hct⟩ | ⟨ha2, hct⟩ <;>
      rcases mem_block_cases hb with ⟨hb2, hct2⟩ | ⟨hb2, hct2⟩ | ⟨hb2, hct2⟩ | ⟨hb2, hct2⟩ | ⟨hb2, hct2⟩ <;>
      rw [hct, hct2] at hrank <;>
      simp [changeTypeRank] at hrank <;>
      unfold allChangeRecords <;>
      first
        | exact pair_sublist_of_mem (by simp [ha2]) hb2
        | exact pair_sublist_extend_right (pair_sublist_of_mem (by simp [ha2]) hb2)
        | exact pair_sublist_extend_right (pair_sublist_extend_right
            (pair_sublist_of_mem (by simp [ha2]) hb2))
        | exact pair_sublist_extend_right (pair_sublist_extend_right
            (pair_sublist_extend_right (pair_sublist_of_mem (by simp [ha2]) hb2)))

/-- C5 witness: for a concrete diff with one added and one deleted record at
the same date, the amended tie order puts the added record first. -/
theorem chronological_sort_amended_witness :
    List.Sublist
      [(⟨"added", some 5, ChangeData.single ⟨⟨"b", "y", "", "", some 5, none⟩, "added", "b"⟩⟩ : SortRec),
       (⟨"deleted", some 5, ChangeData.single ⟨⟨"a", "x", "", "", some 5, none⟩, "deleted", "a"⟩⟩ : SortRec)]
      (sortChangesChronologically (detectEventChangesDetailed
        [⟨"a", "x", "", "", some 5, none⟩] [⟨"b", "y", "", "", some 5, none⟩])) :=
  (chronological_sort_amended (detectEventChangesDetailed
      [⟨"a", "x", "", "", some 5, none⟩] [⟨"b", "y", "", "", some 5, none⟩])).2
    _ _ (by decide) (by decide) (by decide) (by decide)

/-! ## Support for the simple matcher (detect_event_changes) -/

/-- The `modified` entries produced by the common-uid loop of
`detect_event_changes`, as a filterMap over the common dict items. -/
def commonModified (d2 : List (String × Event)) (l : List (String × Event)) :
    List SimpleModRec :=
  l.filterMap (fun p =>
    match dictLookup d2 p.1 with
    | none => none
    | some event2 =>
      if compareEventProperties p.2 event2 ≠ [] then
        some ⟨p.2, event2, compareEventProperties p.2 event2, "modified"⟩
      else none)

/-- The `unchanged` entries produced by the common-uid loop of
`detect_event_changes`. -/
def commonUnchanged (d2 : List (String × Event)) (l : List (String × Event)) :
    List SimpleEventRec :=
  l.filterMap (fun p =>
    match dictLookup d2 p.1 with
    | none => none
    | some event2 =>
      if compareEventProperties p.2 event2 ≠ [] then none
      else some ⟨p.2, "unchanged"⟩)

theorem foldl_commonStep (d2 : List (String × Event)) (l : List (String × Event)) :
    ∀ base : SimpleChanges,
      l.foldl (commonStep d2) base
        = ⟨base.added, base.deleted, base.modified ++ commonModified d2 l,
           base.unchanged ++ commonUnchanged d2 l⟩ := by
  induction l with
  | nil => intro base; simp [commonModified, commonUnchanged]
  | cons p rest ih =>
    intro base
    rw [List.foldl_cons, ih (commonStep d2 base p)]
    unfold commonStep
    rcases hd : dictLookup d2 p.1 with _ | e2
    · simp [commonModified, commonUnchanged, List.filterMap_cons, hd]
    · by_cases hpc : compareEventProperties p.2 e2 ≠ []
      · simp [commonModified, commonUnchanged, List.filterMap_cons, hd, hpc]
      · simp only [ne_eq, not_not] at hpc
        simp [commonModified, commonUnchanged, List.filterMap_cons, hd, hpc]

theorem filter_eq_singleton {α : Type} {p : α → Bool} {l : List α} {a : α}
    (ha : a ∈ l) (hpa : p a = true) (hnd : l.Nodup)
    (huniq : ∀ x ∈ l, p x = true → x = a) :
    l.filter p = [a] := by
  induction l with
  | nil => simp at ha
  | cons h rest ih =>
    have hnd2 := List.nodup_cons.mp hnd
    rcases List.mem_cons.mp ha with he | ht
    · subst he
      rw [List.filter_cons_of_pos hpa]
      have hrest : rest.filter p = [] := by
        rw [List.filter_eq_nil_iff]
        intro x hx hpx
        exact hnd2.1 ((huniq x (List.mem_cons_of_mem _ hx) hpx) ▸ hx)
      rw [hrest]
    · have hph : ¬ p h = true := by
        intro hph
        have := huniq h (List.mem_cons_self ..) hph
        exact hnd2.1 (this ▸ ht)
      rw [List.filter_cons_of_neg hph]
      exact ih ht hnd2.2 (fun x hx hpx => huniq x (List.mem_cons_of_mem _ hx) hpx)

theorem filterMap_self_eq_filter {g : Event → Option Event} {q : Event → Bool}
    (hg : ∀ e, g e = if q e then some e else none) (l : List Event) :
    l.filterMap g = l.filter q := by
  induction l with
  | nil => rfl
  | cons e rest ih =>
    rw [List.filterMap_cons, List.filter_cons, hg e]
    by_cases hq : q e = true
    · simp [hq, ih]
    · simp [hq, ih]

theorem dictLookup_mem_of_eq_some {d : List (String × Event)} {k : String}
    {v : Event} (h : dictLookup d k = some v) : (k, v) ∈ d := by
  unfold dictLookup at h
  match hf : d.find? (fun p => p.1 = k) with
  | none => rw [hf] at h; simp at h
  | some p =>
    rw [hf] at h
    simp at h
    have hp1 : p.1 = k := by simpa using List.find?_some hf
    have hpd := List.mem_of_find?_eq_some hf
    have : p = (k, v) := by
      cases p
      simp_all
    exact this ▸ hpd

theorem hasKey_lookup_isSome {d : List (String × Event)} {k : String}
    (h : hasKey d k = true) : ∃ v, dictLookup d k = some v := by
  unfold hasKey at h
  obtain ⟨p, hp, hpk⟩ := List.any_eq_true.mp h
  match hf : d.find? (fun p => p.1 = k) with
  | none =>
    have := List.find?_eq_none.mp hf p hp
    exact absurd hpk this
  | some q => exact ⟨q.2, by simp [dictLookup, hf]⟩

/-! ## C3, C4: the simple matcher -/

theorem eventsByUid_eq_map {l : List Event}
    (he : ∀ e ∈ l, e.uid ≠ "") (hn : (l.map (fun e => e.uid)).Nodup) :
    eventsByUid l = l.map (fun e => (e.uid, e)) := by
  unfold eventsByUid
  rw [List.filter_eq_self.mpr (fun a ha => by simpa using he a ha)]
  exact buildDict_eq_map (fun e => e.uid) hn

theorem filter_no_uid_nil {l : List Event} (he : ∀ e ∈ l, e.uid ≠ "") :
    l.filter (fun e => e.uid = "") = [] :=
  List.filter_eq_nil_iff.mpr (fun a ha => by simpa using he a ha)

theorem detectEventChanges_keyed (events1 events2 : List Event)
    (h1e : ∀ e ∈ events1, e.uid ≠ "") (h1n : (events1.map (fun e => e.uid)).Nodup)
    (h2e : ∀ e ∈ events2, e.uid ≠ "") (h2n : (events2.map (fun e => e.uid)).Nodup) :
    detectEventChanges events1 events2 =
      { added := (((events2.map (fun e => (e.uid, e))).filter
            (fun p => !hasKey (events1.map (fun e => (e.uid, e))) p.1)).map
            (fun p => SimpleEventRec.mk p.2 "added")).insertionSort simpleEventLe
        deleted := (((events1.map (fun e => (e.uid, e))).filter
            (fun p => !hasKey (events2.map (fun e => (e.uid, e))) p.1)).map
            (fun p => SimpleEventRec.mk p.2 "deleted")).insertionSort simpleEventLe
        modified := (commonModified (events2.map (fun e => (e.uid, e)))
            ((events1.map (fun e => (e.uid, e))).filter
              (fun p => hasKey (events2.map (fun e => (e.uid, e))) p.1))).insertionSort
            simpleModLe
        unchanged := commonUnchanged (events2.map (fun e => (e.uid, e)))
          ((events1.map (fun e => (e.uid, e))).filter
            (fun p => hasKey (events2.map (fun e => (e.uid, e))) p.1)) } := by
  simp only [detectEventChanges]
  rw [eventsByUid_eq_map h1e h1n, eventsByUid_eq_map h2e h2n,
    filter_no_uid_nil h1e, filter_no_uid_nil h2e]
  rw [foldl_commonStep]
  simp [buildDict]

theorem countP_beq_and2 {α : Type} [DecidableEq α] {l : List α} {e : α}
    (c : α → Bool) (hnd : l.Nodup) (he : e ∈ l) :
    l.countP (fun x => (x == e) && c x) = if c e then 1 else 0 := by
  by_cases hc : c e = true
  · rw [if_pos hc, List.countP_eq_length_filter]
    rw [filter_eq_singleton he (by simp [hc]) hnd (fun x hx hpx => by
      simp at hpx
      exact hpx.1)]
    rfl
  · rw [if_neg hc]
    rw [List.countP_eq_zero.mpr]
    intro x hx hpx
    simp at hpx
    exact hc (hpx.1 ▸ hpx.2)

theorem count_mapped_filter (l : List Event) (pd : String × Event → Bool)
    (ct : String) (e : Event) :
    List.count e ((((l.map (fun x => (x.uid, x))).filter pd).map
        (fun p => SimpleEventRec.mk p.2 ct)).map (fun r => r.event))
      = List.countP (fun x => (x == e) && pd (x.uid, x)) l := by
  rw [List.map_map, List.count_eq_countP, List.countP_map, List.countP_filter,
    List.countP_map]
  apply List.countP_congr
  intro x _
  simp [Function.comp]

theorem count_filterMap_common {β : Type} [DecidableEq β] (l : List Event)
    (d2 : List (String × Event)) (g : String × Event → Option β) (e : β) :
    List.count e (List.filterMap g ((l.map (fun x => (x.uid, x))).filter
        (fun p => hasKey d2 p.1)))
      = List.countP (fun x => (g (x.uid, x) == some e) && hasKey d2 x.uid) l := by
  rw [List.count_filterMap, List.countP_filter, List.countP_map]
  apply List.countP_congr
  intro x _
  simp [Function.comp]

theorem mapDict_keys (l : List Event) :
    (l.map (fun x => (x.uid, x))).map Prod.fst = l.map (fun x => x.uid) := by
  rw [List.map_map]
  rfl

theorem mapDict_lookup_self {l : List Event} (hn : (l.map (fun x => x.uid)).Nodup)
    {x : Event} (hx : x ∈ l) :
    dictLookup (l.map (fun y => (y.uid, y))) x.uid = some x :=
  dictLookup_of_mem (by rw [mapDict_keys]; exact hn) (List.mem_map.mpr ⟨x, hx, rfl⟩)

theorem mapDict_lookup_mem {l : List Event} {u : String} {y : Event}
    (h : dictLookup (l.map (fun x => (x.uid, x))) u = some y) :
    y ∈ l ∧ y.uid = u := by
  have hm := dictLookup_mem_of_eq_some h
  obtain ⟨x, hx, hpair⟩ := List.mem_map.mp hm
  have h1 : x.uid = u := congrArg Prod.fst hpair
  have h2 : x = y := congrArg Prod.snd hpair
  exact ⟨h2 ▸ hx, h2 ▸ h1⟩

theorem mapDict_lookup_none {l : List Event} {u : String}
    (h : ¬ hasKey (l.map (fun x => (x.uid, x))) u = true) :
    dictLookup (l.map (fun x => (x.uid, x))) u = none := by
  unfold dictLookup
  rw [List.find?_eq_none.mpr]
  · rfl
  · intro p hp hpk
    exact h (List.any_eq_true.mpr ⟨p, hp, hpk⟩)

theorem hasKey_of_lookup {d : List (String × Event)} {u : String} {y : Event}
    (h : dictLookup d u = some y) : hasKey d u = true :=
  List.any_eq_true.mpr ⟨(u, y), dictLookup_mem_of_eq_some h, by simp⟩

theorem detect_before_count (events1 events2 : List Event)
    (h1e : ∀ x ∈ events1, x.uid ≠ "") (h1n : (events1.map (fun x => x.uid)).Nodup)
    (h2e : ∀ x ∈ events2, x.uid ≠ "") (h2n : (events2.map (fun x => x.uid)).Nodup)
    (e : Event) (he : e ∈ events1) :
    ((detectEventChanges events1 events2).deleted.map (fun r => r.event)
      ++ (detectEventChanges events1 events2).modified.map (fun r => r.event1)
      ++ (detectEventChanges events1 events2).unchanged.map (fun r => r.event)).count e
      = 1 := by
  rw [detectEventChanges_keyed events1 events2 h1e h1n h2e h2n]
  simp only [List.count_append]
  have hnd1 : events1.Nodup := List.Nodup.of_map _ h1n
  have hdel1 : ((((((events1.map (fun x => (x.uid, x))).filter
        (fun p => !hasKey (events2.map (fun x => (x.uid, x))) p.1)).map
        (fun p => SimpleEventRec.mk p.2 "deleted")).insertionSort simpleEventLe).map
        (fun r => r.event)).count e)
      = List.countP (fun x => (x == e)
          && !hasKey (events2.map (fun y => (y.uid, y))) x.uid) events1 := by
    rw [((List.perm_insertionSort simpleEventLe _).map (fun r => r.event)).count_eq e]
    exact count_mapped_filter events1 _ "deleted" e
  have hmod1 : (((commonModified (events2.map (fun x => (x.uid, x)))
        ((events1.map (fun x => (x.uid, x))).filter
          (fun p => hasKey (events2.map (fun x => (x.uid, x))) p.1))).insertionSort
        simpleModLe).map (fun r => r.event1)).count e
      = List.countP (fun x => (x == e)
          && (match dictLookup (events2.map (fun y => (y.uid, y))) x.uid with
              | none => false
              | some e2 => decide (compareEventProperties x e2 ≠ []))) events1 := by
    rw [((List.perm_insertionSort simpleModLe _).map (fun r => r.event1)).count_eq e]
    unfold commonModified
    rw [List.map_filterMap, count_filterMap_common]
    apply List.countP_congr
    intro x _
    rcases hl : dictLookup (events2.map (fun y => (y.uid, y))) x.uid with _ | e2
    · simp [hl]
    · have hk := hasKey_of_lookup hl
      by_cases hpc : compareEventProperties x e2 ≠ []
      · simp [hl, hpc, hk]
      · simp only [ne_eq, not_not] at hpc
        simp [hl, hpc, hk]
  have hunch1 : ((commonUnchanged (events2.map (fun x => (x.uid, x)))
        ((events1.map (fun x => (x.uid, x))).filter
          (fun p => hasKey (events2.map (fun x => (x.uid, x))) p.1))).map
        (fun r => r.event)).count e
      = List.countP (fun x => (x == e)
          && (match dictLookup (events2.map (fun y => (y.uid, y))) x.uid with
              | none => false
              | some e2 => decide (compareEventProperties x e2 = []))) events1 := by
    unfold commonUnchanged
    rw [List.map_filterMap, count_filterMap_common]
    apply List.countP_congr
    intro x _
    rcases hl : dictLookup (events2.map (fun y => (y.uid, y))) x.uid with _ | e2
    · simp [hl]
    · have hk := hasKey_of_lookup hl
      by_cases hpc : compareEventProperties x e2 ≠ []
      · simp [hl, hpc, hk]
      · simp only [ne_eq, not_not] at hpc
        simp [hl, hpc, hk]
  rw [hdel1, hmod1, hunch1, countP_beq_and2 _ hnd1 he, countP_beq_and2 _ hnd1 he,
    countP_beq_and2 _ hnd1 he]
  by_cases hk : hasKey (events2.map (fun y => (y.uid, y))) e.uid = true
  · obtain ⟨v, hv⟩ := hasKey_lookup_isSome hk
    by_cases hpc : compareEventProperties e v ≠ []
    · simp [hk, hv, hpc]
    · simp only [ne_eq, not_not] at hpc
      simp [hk, hv, hpc]
  · have hl := mapDict_lookup_none hk
    simp [hk, hl]

theorem mapDict_hasKey_self {l : List Event} {x : Event} (hx : x ∈ l) :
    hasKey (l.map (fun y => (y.uid, y))) x.uid = true :=
  List.any_eq_true.mpr ⟨(x.uid, x), List.mem_map.mpr ⟨x, hx, rfl⟩, by simp⟩

theorem compareEventProperties_self (e : Event) :
    compareEventProperties e e = [] :=
  (compareEventProperties_eq_nil_iff e e).mpr ⟨rfl, rfl, rfl, rfl, rfl⟩

theorem detect_after_count (events1 events2 : List Event)
    (h1e : ∀ x ∈ events1, x.uid ≠ "") (h1n : (events1.map (fun x => x.uid)).Nodup)
    (h2e : ∀ x ∈ events2, x.uid ≠ "") (h2n : (events2.map (fun x => x.uid)).Nodup)
    (e : Event) (he : e ∈ events2) :
    ((detectEventChanges events1 events2).added.map (fun r => r.event)
      ++ (detectEventChanges events1 events2).modified.map (fun r => r.event2)
      ++ (detectEventChanges events1 events2).unchanged.map (fun r => r.event)).count e
      = 1 := by
  rw [detectEventChanges_keyed events1 events2 h1e h1n h2e h2n]
  simp only [List.count_append]
  have hnd1 : events1.Nodup := List.Nodup.of_map _ h1n
  have hnd2 : events2.Nodup := List.Nodup.of_map _ h2n
  have hadd : ((((((events2.map (fun x => (x.uid, x))).filter
        (fun p => !hasKey (events1.map (fun x => (x.uid, x))) p.1)).map
        (fun p => SimpleEventRec.mk p.2 "added")).insertionSort simpleEventLe).map
        (fun r => r.event)).count e)
      = List.countP (fun x => (x == e)
          && !hasKey (events1.map (fun y => (y.uid, y))) x.uid) events2 := by
    rw [((List.perm_insertionSort simpleEventLe _).map (fun r => r.event)).count_eq e]
    exact count_mapped_filter events2 _ "added" e
  have hmod2 : (((commonModified (events2.map (fun x => (x.uid, x)))
        ((events1.map (fun x => (x.uid, x))).filter
          (fun p => hasKey (events2.map (fun x => (x.uid, x))) p.1))).insertionSort
        simpleModLe).map (fun r => r.event2)).count e
      = List.countP (fun x =>
          ((match dictLookup (events2.map (fun y => (y.uid, y))) x.uid with
             | none => (none : Option Event)
             | some event2 =>
               if compareEventProperties x event2 ≠ [] then some event2
               else none) == some e)
          && hasKey (events2.map (fun y => (y.uid, y))) x.uid) events1 := by
    rw [((List.perm_insertionSort simpleModLe _).map (fun r => r.event2)).count_eq e]
    unfold commonModified
    rw [List.map_filterMap, count_filterMap_common]
    apply List.countP_congr
    intro x _
    rcases hl : dictLookup (events2.map (fun y => (y.uid, y))) x.uid with _ | e2
    · simp [hl]
    · by_cases hq : compareEventProperties x e2 ≠ []
      · simp [hl, hq]
      · simp only [ne_eq, not_not] at hq
        simp [hl, hq]
  have hunch2 : ((commonUnchanged (events2.map (fun x => (x.uid, x)))
        ((events1.map (fun x => (x.uid, x))).filter
          (fun p => hasKey (events2.map (fun x => (x.uid, x))) p.1))).map
        (fun r => r.event)).count e
      = List.countP (fun x =>
          ((match dictLookup (events2.map (fun y => (y.uid, y))) x.uid with
             | none => (none : Option Event)
             | some event2 =>
               if compareEventProperties x event2 ≠ [] then none
               else some x) == some e)
          && hasKey (events2.map (fun y => (y.uid, y))) x.uid) events1 := by
    unfold commonUnchanged
    rw [List.map_filterMap, count_filterMap_common]
    apply List.countP_congr
    intro x _
    rcases hl : dictLookup (events2.map (fun y => (y.uid, y))) x.uid with _ | e2
    · simp [hl]
    · by_cases hq : compareEventProperties x e2 ≠ []
      · simp [hl, hq]
      · simp only [ne_eq, not_not] at hq
        simp [hl, hq]
  rw [hadd, hmod2, hunch2]
  by_cases hk1 : hasKey (events1.map (fun y => (y.uid, y))) e.uid = true
  · have hukeys : e.uid ∈ events1.map (fun x => x.uid) := by
      rw [← mapDict_keys]
      exact (hasKey_iff_mem_keys _ _).mp hk1
    obtain ⟨e1, he1, he1uid⟩ := List.mem_map.mp hukeys
    have hlook2 : dictLookup (events2.map (fun y => (y.uid, y))) e.uid = some e :=
      mapDict_lookup_self h2n he
    have hlook21 : dictLookup (events2.map (fun y => (y.uid, y))) e1.uid = some e := by
      rw [he1uid]
      exact hlook2
    have haddz : List.countP (fun x => (x == e)
        && !hasKey (events1.map (fun y => (y.uid, y))) x.uid) events2 = 0 := by
      rw [List.countP_eq_zero]
      intro x hx hpx
      simp at hpx
      obtain ⟨hh1, hh2⟩ := hpx
      rw [hh1] at hh2
      rw [hk1] at hh2
      exact absurd hh2 (by decide)
    rw [haddz]
    by_cases hpc : compareEventProperties e1 e ≠ []
    · have hmodc : List.countP (fun x =>
          ((match dictLookup (events2.map (fun y => (y.uid, y))) x.uid with
             | none => (none : Option Event)
             | some event2 =>
               if compareEventProperties x event2 ≠ [] then some event2
               else none) == some e)
          && hasKey (events2.map (fun y => (y.uid, y))) x.uid) events1
          = List.countP (fun x => (x == e1)
              && decide (compareEventProperties x e ≠ [])) events1 := by
        apply List.countP_congr
        intro x hx
        constructor
        · intro hp
          simp only [Bool.and_eq_true, beq_iff_eq] at hp
          obtain ⟨hp1, _⟩ := hp
          rcases hl : dictLookup (events2.map (fun y => (y.uid, y))) x.uid with _ | e2
          · simp [hl] at hp1
          · by_cases hq : compareEventProperties x e2 ≠ []
            · simp [hl, hq] at hp1
              rw [hp1] at hl hq
              obtain ⟨_, huid⟩ := mapDict_lookup_mem hl
              have hx1 : x = e1 :=
                List.inj_on_of_nodup_map h1n hx he1 (by rw [← huid, he1uid])
              simp [hx1, hx1 ▸ hq]
            · simp only [ne_eq, not_not] at hq
              simp [hl, hq] at hp1
        · intro hp
          simp only [Bool.and_eq_true, beq_iff_eq, decide_eq_true_eq] at hp
          obtain ⟨hx1, hq⟩ := hp
          subst hx1
          simp [hlook21, hq, hasKey_of_lookup hlook21]
      have hunchz : List.countP (fun x =>
          ((match dictLookup (events2.map (fun y => (y.uid, y))) x.uid with
             | none => (none : Option Event)
             | some event2 =>
               if compareEventProperties x event2 ≠ [] then none
               else some x) == some e)
          && hasKey (events2.map (fun y => (y.uid, y))) x.uid) events1 = 0 := by
        rw [List.countP_eq_zero]
        intro x hx hpx
        simp only [Bool.and_eq_true, beq_iff_eq] at hpx
        obtain ⟨hp1, _⟩ := hpx
        rcases hl : dictLookup (events2.map (fun y => (y.uid, y))) x.uid with _ | e2
        · simp [hl] at hp1
        · by_cases hq : compareEventProperties x e2 ≠ []
          · simp [hl, hq] at hp1
          · simp only [ne_eq, not_not] at hq
            simp [hl, hq] at hp1
            rw [hp1] at hl hq hx
            have he2e : e2 = e := by
              have h4 := hl.symm.trans hlook2
              simpa using h4
            have hx1 : e = e1 :=
              List.inj_on_of_nodup_map h1n hx he1 he1uid.symm
            apply hpc
            rw [← hx1]
            rw [he2e] at hq
            exact hq
      rw [hmodc, hunchz, countP_beq_and2 _ hnd1 he1]
      simp [hpc]
    · simp only [ne_eq, not_not] at hpc
      have hee1 : e1 = e := compareEventProperties_nil_event_eq he1uid hpc
      have heInEvents1 : e ∈ events1 := hee1 ▸ he1
      have hunchc : List.countP (fun x =>
          ((match dictLookup (events2.map (fun y => (y.uid, y))) x.uid with
             | none => (none : Option Event)
             | some event2 =>
               if compareEventProperties x event2 ≠ [] then none
               else some x) == some e)
          && hasKey (events2.map (fun y => (y.uid, y))) x.uid) events1
          = List.countP (fun x => (x == e) && true) events1 := by
        apply List.countP_congr
        intro x hx
        constructor
        · intro hp
          simp only [Bool.and_eq_true, beq_iff_eq] at hp
          obtain ⟨hp1, _⟩ := hp
          rcases hl : dictLookup (events2.map (fun y => (y.uid, y))) x.uid with _ | e2
          · simp [hl] at hp1
          · by_cases hq : compareEventProperties x e2 ≠ []
            · simp [hl, hq] at hp1
            · simp only [ne_eq, not_not] at hq
              simp [hl, hq] at hp1
              simp [hp1]
        · intro hp
          simp only [Bool.and_eq_true, beq_iff_eq, and_true] at hp
          subst hp
          simp [hlook2, compareEventProperties_self x, hasKey_of_lookup hlook2]
      have hmodz : List.countP (fun x =>
          ((match dictLookup (events2.map (fun y => (y.uid, y))) x.uid with
             | none => (none : Option Event)
             | some event2 =>
               if compareEventProperties x event2 ≠ [] then some event2
               else none) == some e)
          && hasKey (events2.map (fun y => (y.uid, y))) x.uid) events1 = 0 := by
        rw [List.countP_eq_zero]
        intro x hx hpx
        simp only [Bool.and_eq_true, beq_iff_eq] at hpx
        obtain ⟨hp1, _⟩ := hpx
        rcases hl : dictLookup (events2.map (fun y => (y.uid, y))) x.uid with _ | e2
        · simp [hl] at hp1
        · by_cases hq : compareEventProperties x e2 ≠ []
          · simp [hl, hq] at hp1
            rw [hp1] at hl hq
            obtain ⟨_, huid⟩ := mapDict_lookup_mem hl
            have hx1 : x = e1 :=
              List.inj_on_of_nodup_map h1n hx he1 (by rw [← huid, he1uid])
            apply hq
            rw [hx1, hee1]
            exact compareEventProperties_self e
          · simp only [ne_eq, not_not] at hq
            simp [hl, hq] at hp1
      rw [hunchc, hmodz, countP_beq_and2 _ hnd1 heInEvents1]
      simp
  · have hmodz : List.countP (fun x =>
        ((match dictLookup (events2.map (fun y => (y.uid, y))) x.uid with
           | none => (none : Option Event)
           | some event2 =>
             if compareEventProperties x event2 ≠ [] then some event2
             else none) == some e)
        && hasKey (events2.map (fun y => (y.uid, y))) x.uid) events1 = 0 := by
      rw [List.countP_eq_zero]
      intro x hx hpx
      simp only [Bool.and_eq_true, beq_iff_eq] at hpx
      obtain ⟨hp1, _⟩ := hpx
      rcases hl : dictLookup (events2.map (fun y => (y.uid, y))) x.uid with _ | e2
      · simp [hl] at hp1
      · by_cases hq : compareEventProperties x e2 ≠ []
        · simp [hl, hq] at hp1
          rw [hp1] at hl
          obtain ⟨_, huid⟩ := mapDict_lookup_mem hl
          apply hk1
          rw [huid]
          exact mapDict_hasKey_self hx
        · simp only [ne_eq, not_not] at hq
          simp [hl, hq] at hp1
    have hunchz : List.countP (fun x =>
        ((match dictLookup (events2.map (fun y => (y.uid, y))) x.uid with
           | none => (none : Option Event)
           | some event2 =>
             if compareEventProperties x event2 ≠ [] then none
             else some x) == some e)
        && hasKey (events2.map (fun y => (y.uid, y))) x.uid) events1 = 0 := by
      rw [List.countP_eq_zero]
      intro x hx hpx
      simp only [Bool.and_eq_true, beq_iff_eq] at hpx
      obtain ⟨hp1, _⟩ := hpx
      rcases hl : dictLookup (events2.map (fun y => (y.uid, y))) x.uid with _ | e2
      · simp [hl] at hp1
      · by_cases hq : compareEventProperties x e2 ≠ []
        · simp [hl, hq] at hp1
        · simp only [ne_eq, not_not] at hq
          simp [hl, hq] at hp1
          apply hk1
          rw [← hp1]
          exact mapDict_hasKey_self hx
    rw [hmodz, hunchz, countP_beq_and2 _ hnd2 he]
    simp [hk1]

/-- C3 amended: partition completeness holds on the uid-keyed fragment.  For
input lists whose events all carry unique non-empty uids, every before event
appears exactly once across the deleted entries and the before sides of the
matched pairs (`modified` pairs plus `unchanged` entries), and every after
event appears exactly once across the added entries and the after sides of
the matched pairs.  (As stated for all inputs the claim is false: uid-less
events can vanish from the output entirely, see the counterexample.) -/
theorem partition_completeness_keyed (events1 events2 : List Event)
    (h1e : ∀ x ∈ events1, x.uid ≠ "") (h1n : (events1.map (fun x => x.uid)).Nodup)
    (h2e : ∀ x ∈ events2, x.uid ≠ "") (h2n : (events2.map (fun x => x.uid)).Nodup) :
    (∀ e ∈ events1,
      ((detectEventChanges events1 events2).deleted.map (fun r => r.event)
        ++ (detectEventChanges events1 events2).modified.map (fun r => r.event1)
        ++ (detectEventChanges events1 events2).unchanged.map (fun r => r.event)).count e
        = 1)
    ∧ (∀ e ∈ events2,
      ((detectEventChanges events1 events2).added.map (fun r => r.event)
        ++ (detectEventChanges events1 events2).modified.map (fun r => r.event2)
        ++ (detectEventChanges events1 events2).unchanged.map (fun r => r.event)).count e
        = 1) :=
  ⟨fun e he => detect_before_count events1 events2 h1e h1n h2e h2n e he,
   fun e he => detect_after_count events1 events2 h1e h1n h2e h2n e he⟩

/-- C3 counterexample: an event without uid present identically in both
inputs appears zero times across deleted and the pair before-sides (the
fallback matching drops it silently), not exactly once as claimed. -/
theorem partition_completeness_counterexample :
    (⟨"", "A", "", "", some 1, none⟩ : Event) ∈ [(⟨"", "A", "", "", some 1, none⟩ : Event)]
    ∧ ((detectEventChanges [⟨"", "A", "", "", some 1, none⟩]
          [⟨"", "A", "", "", some 1, none⟩]).deleted.map (fun r => r.event)
        ++ (detectEventChanges [⟨"", "A", "", "", some 1, none⟩]
          [⟨"", "A", "", "", some 1, none⟩]).modified.map (fun r => r.event1)
        ++ (detectEventChanges [⟨"", "A", "", "", some 1, none⟩]
          [⟨"", "A", "", "", some 1, none⟩]).unchanged.map (fun r => r.event)).count
          ⟨"", "A", "", "", some 1, none⟩ = 0
    ∧ (0 : Nat) ≠ 1 := by decide

/-- C3 witness: the amended statement applied to concrete singleton keyed
lists. -/
theorem partition_completeness_keyed_witness :
    ((detectEventChanges [⟨"a", "x", "", "", some 1, none⟩]
        [⟨"b", "y", "", "", some 2, none⟩]).deleted.map (fun r => r.event)
      ++ (detectEventChanges [⟨"a", "x", "", "", some 1, none⟩]
        [⟨"b", "y", "", "", some 2, none⟩]).modified.map (fun r => r.event1)
      ++ (detectEventChanges [⟨"a", "x", "", "", some 1, none⟩]
        [⟨"b", "y", "", "", some 2, none⟩]).unchanged.map (fun r => r.event)).count
        ⟨"a", "x", "", "", some 1, none⟩ = 1 :=
  (partition_completeness_keyed [⟨"a", "x", "", "", some 1, none⟩]
      [⟨"b", "y", "", "", some 2, none⟩]
      (by decide) (by decide) (by decide) (by decide)).1
    ⟨"a", "x", "", "", some 1, none⟩ (by decide)

theorem mem_keys_dictInsert {d : List (String × Event)} {k k2 : String} {v : Event} :
    k2 ∈ (dictInsert d k v).map Prod.fst ↔ k2 ∈ d.map Prod.fst ∨ k2 = k := by
  rw [dictInsert_keys]
  split
  · rename_i hany
    obtain ⟨p, hp, hpk⟩ := List.any_eq_true.mp hany
    simp only [decide_eq_true_eq] at hpk
    constructor
    · exact Or.inl
    · rintro (h | h)
      · exact h
      · exact h ▸ hpk ▸ List.mem_map.mpr ⟨p, hp, rfl⟩
  · simp

theorem mem_keys_buildDict (key : Event → String) (l : List Event) (k : String) :
    k ∈ (buildDict key l).map Prod.fst ↔ ∃ x ∈ l, key x = k := by
  unfold buildDict
  suffices hgen : ∀ (l2 : List Event) (acc : List (String × Event)),
      k ∈ ((l2.foldl (fun d e => dictInsert d (key e) e) acc).map Prod.fst)
        ↔ k ∈ acc.map Prod.fst ∨ ∃ x ∈ l2, key x = k by
    simpa using hgen l []
  intro l2
  induction l2 with
  | nil => intro acc; simp
  | cons e rest ih =>
    intro acc
    rw [List.foldl_cons, ih]
    rw [mem_keys_dictInsert]
    constructor
    · rintro ((h | h) | h)
      · exact Or.inl h
      · exact Or.inr ⟨e, List.mem_cons_self .., h.symm⟩
      · obtain ⟨x, hx, hxk⟩ := h
        exact Or.inr ⟨x, List.mem_cons_of_mem _ hx, hxk⟩
    · rintro (h | h)
      · exact Or.inl (Or.inl h)
      · obtain ⟨x, hx, hxk⟩ := h
        rcases List.mem_cons.mp hx with he2 | ht
        · exact Or.inl (Or.inr (he2 ▸ hxk).symm)
        · exact Or.inr ⟨x, ht, hxk⟩

theorem hasKey_buildDict_iff (key : Event → String) (l : List Event) (k : String) :
    hasKey (buildDict key l) k = true ↔ ∃ x ∈ l, key x = k := by
  rw [hasKey_iff_mem_keys, mem_keys_buildDict]

theorem fallbackKey_eq_empty_iff (e : Event) : fallbackKey e = "" ↔ e.dtstart = none := by
  unfold fallbackKey
  rcases e.dtstart with _ | d
  · simp
  · simp [isoDT_ne_empty d]

theorem fallbackKey_eq_iff_dtstart {x e : Event} {d : DT} (hd : e.dtstart = some d) :
    fallbackKey x = fallbackKey e ↔ x.dtstart = e.dtstart := by
  unfold fallbackKey
  rw [hd]
  rcases x.dtstart with _ | d2
  · simp [(isoDT_ne_empty d).symm]
  · simp only [Option.some.injEq]
    constructor
    · exact fun h => isoDT_injective h
    · exact fun h => h ▸ rfl

theorem mem_fallback_filtered {noSelf noOther : List Event} {e : Event}
    (hnodup : (noSelf.map fallbackKey).Nodup) (he : e ∈ noSelf) :
    (e ∈ ((buildDict fallbackKey noSelf).filter
        (fun p => !hasKey (buildDict fallbackKey noOther) p.1 && p.1 != "")).map
        (fun p => p.2)
      ↔ (e.dtstart ≠ none ∧ ∀ x ∈ noOther, x.dtstart ≠ e.dtstart)) := by
  rw [buildDict_eq_map fallbackKey hnodup]
  constructor
  · intro hm
    obtain ⟨p, hp, hpe⟩ := List.mem_map.mp hm
    obtain ⟨hpF, hpcond⟩ := List.mem_filter.mp hp
    obtain ⟨x, hx, hxp⟩ := List.mem_map.mp hpF
    have hxe : x = e := by rw [← hxp] at hpe; exact hpe
    subst hxe
    rw [← hxp] at hpcond
    simp only [Bool.and_eq_true, Bool.not_eq_true, bne_iff_ne, ne_eq] at hpcond
    obtain ⟨hnk, hne⟩ := hpcond
    have hds : x.dtstart ≠ none := fun h => hne ((fallbackKey_eq_empty_iff x).mpr h)
    refine ⟨hds, ?_⟩
    intro y hy hyds
    obtain ⟨d, hd⟩ := Option.ne_none_iff_exists'.mp hds
    have hkey : fallbackKey y = fallbackKey x :=
      (fallbackKey_eq_iff_dtstart hd).mpr hyds
    have := (hasKey_buildDict_iff fallbackKey noOther (fallbackKey x)).mpr ⟨y, hy, hkey⟩
    rw [this] at hnk
    exact absurd hnk (by decide)
  · rintro ⟨hds, hforall⟩
    obtain ⟨d, hd⟩ := Option.ne_none_iff_exists'.mp hds
    apply List.mem_map.mpr
    refine ⟨(fallbackKey e, e), ?_, rfl⟩
    apply List.mem_filter.mpr
    refine ⟨List.mem_map.mpr ⟨e, he, rfl⟩, ?_⟩
    simp only [Bool.and_eq_true, bne_iff_ne, ne_eq]
    constructor
    · cases hcase : hasKey (buildDict fallbackKey noOther) (fallbackKey e)
      · rfl
      · obtain ⟨y, hy, hyk⟩ := (hasKey_buildDict_iff fallbackKey noOther _).mp hcase
        exact absurd ((fallbackKey_eq_iff_dtstart hd).mp hyk) (hforall y hy)
    · intro hk
      exact hds ((fallbackKey_eq_empty_iff e).mp hk)

/-- C4 amended: uid-less events are matched by the fallback key
`dtstart.isoformat()` alone — the summary is not part of the key.  Under
distinct fallback keys per side, an unkeyed after event is reported added
iff its start is present and no unkeyed before event has the same start
(and symmetrically for deleted); an unkeyed event with absent start is
never reported at all, regardless of its summary. -/
theorem fallback_key_start_only (events1 events2 : List Event)
    (h1 : ((events1.filter (fun x => x.uid = "")).map fallbackKey).Nodup)
    (h2 : ((events2.filter (fun x => x.uid = "")).map fallbackKey).Nodup) :
    (∀ e ∈ events2.filter (fun x => x.uid = ""),
      (e ∈ (detectEventChanges events1 events2).added.map (fun r => r.event) ↔
        (e.dtstart ≠ none ∧
          ∀ x ∈ events1.filter (fun y => y.uid = ""), x.dtstart ≠ e.dtstart)))
    ∧ (∀ e ∈ events1.filter (fun x => x.uid = ""),
      (e ∈ (detectEventChanges events1 events2).deleted.map (fun r => r.event) ↔
        (e.dtstart ≠ none ∧
          ∀ x ∈ events2.filter (fun y => y.uid = ""), x.dtstart ≠ e.dtstart))) := by
  constructor
  · intro e he
    have heu : e.uid = "" := by simpa using (List.mem_filter.mp he).2
    simp only [detectEventChanges, foldl_commonStep]
    rw [((List.perm_insertionSort simpleEventLe _).map (fun r => r.event)).mem_iff]
    rw [List.map_append, List.mem_append]
    have hnot0 : e ∉ (((eventsByUid events2).filter
        (fun p => !hasKey (eventsByUid events1) p.1)).map
        (fun p => SimpleEventRec.mk p.2 "added")).map (fun r => r.event) := by
      intro hmem
      rw [List.map_map] at hmem
      obtain ⟨p, hp, hpe⟩ := List.mem_map.mp hmem
      have hpd := (List.mem_filter.mp hp).1
      have hprop := buildDict_mem_prop (fun x => x.uid) (fun x => x.uid ≠ "")
        (events2.filter (fun x => x.uid ≠ ""))
        (fun x hx => by simpa using (List.mem_filter.mp hx).2) p hpd
      exact hprop.2 (by rw [show p.2 = e from hpe, heu])
    rw [or_iff_right hnot0, List.map_map]
    exact mem_fallback_filtered h2 he
  · intro e he
    have heu : e.uid = "" := by simpa using (List.mem_filter.mp he).2
    simp only [detectEventChanges, foldl_commonStep]
    rw [((List.perm_insertionSort simpleEventLe _).map (fun r => r.event)).mem_iff]
    rw [List.map_append, List.mem_append]
    have hnot0 : e ∉ (((eventsByUid events1).filter
        (fun p => !hasKey (eventsByUid events2) p.1)).map
        (fun p => SimpleEventRec.mk p.2 "deleted")).map (fun r => r.event) := by
      intro hmem
      rw [List.map_map] at hmem
      obtain ⟨p, hp, hpe⟩ := List.mem_map.mp hmem
      have hpd := (List.mem_filter.mp hp).1
      have hprop := buildDict_mem_prop (fun x => x.uid) (fun x => x.uid ≠ "")
        (events1.filter (fun x => x.uid ≠ ""))
        (fun x hx => by simpa using (List.mem_filter.mp hx).2) p hpd
      exact hprop.2 (by rw [show p.2 = e from hpe, heu])
    rw [or_iff_right hnot0, List.map_map]
    exact mem_fallback_filtered h1 he

/-- C4 counterexample: two uid-less events with the same start but
different summaries are matched with each other (excluded from added and
deleted), although they disagree on the claimed composite key
`(start, summary)`. -/
theorem fallback_key_counterexample :
    (detectEventChanges [⟨"", "A", "", "", some 1, none⟩]
      [⟨"", "B", "", "", some 1, none⟩]).added = []
    ∧ (detectEventChanges [⟨"", "A", "", "", some 1, none⟩]
      [⟨"", "B", "", "", some 1, none⟩]).deleted = []
    ∧ (Event.mk "" "A" "" "" (some 1) none).summary
        ≠ (Event.mk "" "B" "" "" (some 1) none).summary
    ∧ (Event.mk "" "A" "" "" (some 1) none).dtstart
        = (Event.mk "" "B" "" "" (some 1) none).dtstart := by decide

/-- C4 witness: an unkeyed after event whose start matches no unkeyed
before event is reported as added. -/
theorem fallback_key_start_only_witness :
    (⟨"", "B", "", "", some 2, none⟩ : Event) ∈ (detectEventChanges
      [⟨"", "A", "", "", some 1, none⟩]
      [⟨"", "B", "", "", some 2, none⟩]).added.map (fun r => r.event) :=
  ((fallback_key_start_only [⟨"", "A", "", "", some 1, none⟩]
      [⟨"", "B", "", "", some 2, none⟩] (by decide) (by decide)).1
    ⟨"", "B", "", "", some 2, none⟩ (by decide)).mpr (by decide)
